import Mathlib

/-
Verification of the ELF segment-loading bootloaders
(src/rpu_bootloader_sd.c, src/apu_bootloader_sd.c).

Shallow embedding choices:
  - A file is a list of bytes (List Nat, each < 256 in practice); the FatFs
    collaborator is ideal: a read at position p for n bytes returns
    min n (size - p) bytes (short only at end of file), matching f_read on a
    healthy medium.  Environment failures that the code checks (mount, open,
    malloc) are modelled by booleans in Env.
  - Physical memory is a function Nat -> Nat, updated pointwise.
  - Every observable side effect (reads at the three f_read call sites,
    memcpy/memset into physical memory, Xil_DCacheFlushRange, hardware
    register stores, f_open/f_close/malloc/free) is recorded in an event
    trace, so that temporal and resource claims are statements about the
    trace.
  - The C functions signal failure only by returning (uintN_t)-1 and a log
    line; each distinct return site is given its own LoadErr constructor,
    named after the spec's error taxonomy for the matching site.
  - Machine arithmetic: program-header fields are parsed little-endian from
    the file bytes, hence already < 2^w; where C arithmetic can wrap
    (offset + filesz compared against f_size, truncation of e_entry to
    uint32) the model reduces modulo 2^w explicitly.
  - load_elf32 and load_elf64 in the sources are textually identical up to
    the field widths; they are embedded as one function load_elf over the
    width w (32 or 64), with load_elf32 / load_elf64 as its instances.
  - The chunked copy loop of the C sources terminates because every
    continuing iteration reads at least one byte; the embedding makes this
    explicit with a fuel argument, initialised to the byte count, which
    dominates the iteration count.  Fuel exhaustion is unreachable whenever
    fuel >= toRead, which every call site establishes.
-/

set_option maxRecDepth 100000

namespace Bootloader

/-- Error taxonomy: one constructor per distinct early-return site of
load_elf32 / load_elf64 (the C code returns (uintN_t)-1 at each of them,
distinguished by log message), named after the spec section 7 taxonomy. -/
inductive LoadErr where
  | mountFailed
  | openFailed
  | headerShortRead
  | badMagic
  | invalidPhdrOffset
  | allocFailed
  | truncatedTable
  | segmentOutOfBounds
  | shortSegmentRead
  deriving DecidableEq, Repr

/-- Result of one load: the resolved entry point, or a typed failure. -/
inductive LoadResult where
  | ok (entry : Nat)
  | err (e : LoadErr)
  deriving DecidableEq, Repr

/-- Observable events of one load / of the APU main pipeline. -/
inductive Ev where
  | openF
  | closeF
  | alloc
  | freeA
  | readHdr (req got : Nat)
  | readTbl (req got : Nat)
  | readChunk (req got : Nat)
  | memWrite (addr len : Nat)
  | flush (addr len : Nat)
  | regW (addr val : Nat)
  deriving DecidableEq, Repr

/-- Events that the segment-materialising code (chunk loop plus zero-fill)
can emit. -/
def chunkEv : Ev → Bool
  | Ev.readChunk _ _ => true
  | Ev.memWrite _ _ => true
  | Ev.flush _ _ => true
  | _ => false

/-- Hardware-register store events. -/
def isRegW : Ev → Bool
  | Ev.regW _ _ => true
  | _ => false

/-- The register-store subsequence of a trace. -/
def regWrites (tr : List Ev) : List Ev := tr.filter isRegW

/-- Number of occurrences of an event in a trace. -/
def countEv (e : Ev) : List Ev → Nat
  | [] => 0
  | x :: r => (if x = e then 1 else 0) + countEv e r

/-- CHUNK_SIZE from both sources. -/
def CHUNK_SIZE : Nat := 4096

/-- Little-endian integer assembled from n bytes of the file starting at
pos (bytes past the end read as 0; all uses are guarded by size checks,
as in the C code, which only parses bytes it has successfully read). -/
def leBytes (f : List Nat) (pos : Nat) : Nat → Nat
  | 0 => 0
  | n + 1 => f.getD pos 0 + 256 * leBytes f (pos + 1) n

/-- sizeof(Elf32_Ehdr) = 52, sizeof(Elf64_Ehdr) = 64. -/
def ehdrSize (w : Nat) : Nat := if w = 32 then 52 else 64

/-- sizeof(Elf32_Phdr) = 32, sizeof(Elf64_Phdr) = 56. -/
def phdrSize (w : Nat) : Nat := if w = 32 then 32 else 56

/-- e_entry field of the ELF header (offset 24, width w/8). -/
def e_entry (w : Nat) (f : List Nat) : Nat :=
  if w = 32 then leBytes f 24 4 else leBytes f 24 8

/-- e_phoff field of the ELF header (offset 28 for ELF32, 32 for ELF64). -/
def e_phoff (w : Nat) (f : List Nat) : Nat :=
  if w = 32 then leBytes f 28 4 else leBytes f 32 8

/-- e_phnum field of the ELF header (offset 44 for ELF32, 56 for ELF64). -/
def e_phnum (w : Nat) (f : List Nat) : Nat :=
  if w = 32 then leBytes f 44 2 else leBytes f 56 2

/-- The ELFMAG check of e_ident[0..3] (0x7f, E, L, F), exactly the four
byte comparisons the C code performs. -/
def validMagic (f : List Nat) : Bool :=
  (f.getD 0 0 == 0x7f) && (f.getD 1 0 == 0x45) &&
  (f.getD 2 0 == 0x4c) && (f.getD 3 0 == 0x46)

/-- The program-header fields the loader reads (Elf32_Phdr / Elf64_Phdr
members p_type, p_offset, p_vaddr, p_filesz, p_memsz; p_paddr, p_flags and
p_align are never consulted by the C code). -/
structure Phdr where
  p_type : Nat
  p_offset : Nat
  p_vaddr : Nat
  p_filesz : Nat
  p_memsz : Nat
  deriving DecidableEq, Repr

/-- Parse one program header at byte offset b of the file, using the
Elf32_Phdr layout (fields at 0/4/8/16/20) or the Elf64_Phdr layout
(fields at 0/8/16/32/40). -/
def parsePhdr (w : Nat) (f : List Nat) (b : Nat) : Phdr :=
  if w = 32 then
    ⟨leBytes f b 4, leBytes f (b + 4) 4, leBytes f (b + 8) 4,
      leBytes f (b + 16) 4, leBytes f (b + 20) 4⟩
  else
    ⟨leBytes f b 4, leBytes f (b + 8) 8, leBytes f (b + 16) 8,
      leBytes f (b + 32) 8, leBytes f (b + 40) 8⟩

/-- The program-header table as the loader sees it: e_phnum entries read
from the file starting at e_phoff (the code reads the table with one
f_read and indexes it as an array). -/
def phdrs (w : Nat) (f : List Nat) : List Phdr :=
  (List.range (e_phnum w f)).map
    (fun i => parsePhdr w f (e_phoff w f + i * phdrSize w))

/-- The chunked copy loop of load_elf32/load_elf64 (while (bytesToRead > 0)):
per iteration it requests min(bytesToRead, CHUNK_SIZE) bytes, fails when
the read returns zero bytes, otherwise memcpys the returned bytes to
vaddr + bytesLoaded, flushes the cache over exactly those bytes and
continues with the remainder.  Returns (loop completed?, memory, events).
fuel bounds the iteration count; every call passes fuel = toRead, which
suffices since each continuing iteration consumes at least one byte. -/
def copyChunks (f : List Nat) : Nat → (Nat → Nat) → Nat → Nat → Nat → Nat →
    Bool × (Nat → Nat) × List Ev
  | _, mem, _, _, _, 0 => (true, mem, [])
  | 0, mem, _, _, _, _ + 1 => (false, mem, [])
  | fuel + 1, mem, pos, vaddr, loaded, t + 1 =>
    let req := if t + 1 > CHUNK_SIZE then CHUNK_SIZE else t + 1
    let got := min req (f.length - pos)
    if got = 0 then
      (false, mem, [Ev.readChunk req 0])
    else
      let dst := vaddr + loaded
      let r := copyChunks f fuel
        (fun a => if dst ≤ a ∧ a < dst + got then f.getD (pos + (a - dst)) 0 else mem a)
        (pos + got) vaddr (loaded + got) (t + 1 - got)
      (r.1, r.2.1, Ev.readChunk req got :: Ev.memWrite dst got :: Ev.flush dst got :: r.2.2)

/-- Processing of one program-header entry (loop body of the for loop over
program headers): validate p_offset + p_filesz against f_size in w-bit
arithmetic, seek to p_offset, run the chunk loop, then zero-fill
[vaddr+filesz, vaddr+memsz) when p_memsz > p_filesz.  Note the C code never
inspects p_type.  Returns (failure?, memory, events). -/
def loadEntry (w : Nat) (f : List Nat) (mem : Nat → Nat) (ph : Phdr) :
    Option LoadErr × (Nat → Nat) × List Ev :=
  if (ph.p_offset + ph.p_filesz) % 2 ^ w > f.length then
    (some LoadErr.segmentOutOfBounds, mem, [])
  else
    let r := copyChunks f ph.p_filesz mem ph.p_offset ph.p_vaddr 0 ph.p_filesz
    if r.1 then
      if ph.p_memsz > ph.p_filesz then
        (none,
          fun a => if ph.p_vaddr + ph.p_filesz ≤ a ∧ a < ph.p_vaddr + ph.p_filesz + (ph.p_memsz - ph.p_filesz)
            then 0 else r.2.1 a,
          r.2.2 ++ [Ev.memWrite (ph.p_vaddr + ph.p_filesz) (ph.p_memsz - ph.p_filesz)])
      else (none, r.2.1, r.2.2)
    else (some LoadErr.shortSegmentRead, r.2.1, r.2.2)

/-- The for loop over all program-header entries: process entries in order,
stopping at the first failure (the C code returns -1 from inside the
loop). -/
def loadEntries (w : Nat) (f : List Nat) (mem : Nat → Nat) :
    List Phdr → Option LoadErr × (Nat → Nat) × List Ev
  | [] => (none, mem, [])
  | ph :: rest =>
    let r := loadEntry w f mem ph
    match r.1 with
    | some e => (some e, r.2.1, r.2.2)
    | none =>
      let r2 := loadEntries w f r.2.1 rest
      (r2.1, r2.2.1, r.2.2 ++ r2.2.2)

/-- Environment of one load: outcomes of the fallible collaborators the C
code checks (f_mount, f_open, malloc), the opened file content, and the
initial physical memory. -/
structure Env where
  mountOk : Bool
  openOk : Bool
  allocOk : Bool
  file : List Nat
  mem0 : Nat → Nat

/-- Result, final physical memory and event trace of one load. -/
structure LoadOut where
  result : LoadResult
  mem : Nat → Nat
  trace : List Ev

/-- The full loader pipeline of load_elf32 / load_elf64: mount, open, read
and validate the ELF header, check e_phoff, allocate and read the
program-header table, process every entry, release the table, close the
file, and resolve the entry point.  The entry point is the C sources'
uint32_t entry_point = elfHeader.e_entry, i.e. e_entry reduced mod 2^32
(the identity for ELF32). -/
def load_elf (w : Nat) (env : Env) : LoadOut :=
  if env.mountOk = false then ⟨LoadResult.err LoadErr.mountFailed, env.mem0, []⟩
  else if env.openOk = false then ⟨LoadResult.err LoadErr.openFailed, env.mem0, []⟩
  else if min (ehdrSize w) env.file.length ≠ ehdrSize w then
    ⟨LoadResult.err LoadErr.headerShortRead, env.mem0,
      [Ev.openF, Ev.readHdr (ehdrSize w) (min (ehdrSize w) env.file.length), Ev.closeF]⟩
  else if validMagic env.file = false then
    ⟨LoadResult.err LoadErr.badMagic, env.mem0,
      [Ev.openF, Ev.readHdr (ehdrSize w) (ehdrSize w), Ev.closeF]⟩
  else if e_phoff w env.file ≥ env.file.length then
    ⟨LoadResult.err LoadErr.invalidPhdrOffset, env.mem0,
      [Ev.openF, Ev.readHdr (ehdrSize w) (ehdrSize w), Ev.closeF]⟩
  else if env.allocOk = false then
    ⟨LoadResult.err LoadErr.allocFailed, env.mem0,
      [Ev.openF, Ev.readHdr (ehdrSize w) (ehdrSize w), Ev.closeF]⟩
  else if min (e_phnum w env.file * phdrSize w) (env.file.length - e_phoff w env.file)
      ≠ e_phnum w env.file * phdrSize w then
    ⟨LoadResult.err LoadErr.truncatedTable, env.mem0,
      [Ev.openF, Ev.readHdr (ehdrSize w) (ehdrSize w), Ev.alloc,
        Ev.readTbl (e_phnum w env.file * phdrSize w)
          (min (e_phnum w env.file * phdrSize w) (env.file.length - e_phoff w env.file)),
        Ev.freeA, Ev.closeF]⟩
  else
    match (loadEntries w env.file env.mem0 (phdrs w env.file)).1 with
    | some e =>
      ⟨LoadResult.err e, (loadEntries w env.file env.mem0 (phdrs w env.file)).2.1,
        [Ev.openF, Ev.readHdr (ehdrSize w) (ehdrSize w), Ev.alloc,
          Ev.readTbl (e_phnum w env.file * phdrSize w) (e_phnum w env.file * phdrSize w)]
          ++ (loadEntries w env.file env.mem0 (phdrs w env.file)).2.2
          ++ [Ev.freeA, Ev.closeF]⟩
    | none =>
      ⟨LoadResult.ok (e_entry w env.file % 2 ^ 32),
        (loadEntries w env.file env.mem0 (phdrs w env.file)).2.1,
        [Ev.openF, Ev.readHdr (ehdrSize w) (ehdrSize w), Ev.alloc,
          Ev.readTbl (e_phnum w env.file * phdrSize w) (e_phnum w env.file * phdrSize w)]
          ++ (loadEntries w env.file env.mem0 (phdrs w env.file)).2.2
          ++ [Ev.freeA, Ev.closeF]⟩

/-- load_elf32 of src/rpu_bootloader_sd.c (on success the RPU variant
branches to the entry point; the model reports that branch target as the
ok value). -/
def load_elf32 (env : Env) : LoadOut := load_elf 32 env

/-- load_elf64 of src/apu_bootloader_sd.c. -/
def load_elf64 (env : Env) : LoadOut := load_elf 64 env

/-- RST_FPD_APU register address (0xFD1A0104). -/
def RST_FPD_APU_ADDR : Nat := 0xFD1A0104

/-- GLOBAL_GEN_STORAGE6 register address (0xFFD80048). -/
def GLOBAL_GEN_STORAGE6_ADDR : Nat := 0xFFD80048

/-- reset_apu_cores: one store to the reset-control register. -/
def reset_apu_cores (v : Nat) : List Ev := [Ev.regW RST_FPD_APU_ADDR v]

/-- set_apu_rvba: the eight RVBARADDR stores, in program order (the four
low halves to 0, then the four high halves to the entry point). -/
def set_apu_rvba (ep : Nat) : List Ev :=
  [Ev.regW 0xFD5C0040 0, Ev.regW 0xFD5C0048 0, Ev.regW 0xFD5C0050 0, Ev.regW 0xFD5C0058 0,
    Ev.regW 0xFD5C0044 ep, Ev.regW 0xFD5C004C ep, Ev.regW 0xFD5C0054 ep, Ev.regW 0xFD5C005C ep]

/-- MAX_ENTRIES from src/apu_bootloader_sd.c. -/
def MAX_ENTRIES : Nat := 10

/-- The handoff descriptor built by mock_fsbl_SetATFHandoffParams.  Fields
start out unwritten (none); the C structure is a fresh stack object whose
unwritten bytes are indeterminate. -/
structure ATFHandoffParamsStruct where
  MagicValue : Option (List Nat)
  NumEntries : Nat
  Entry : List (Option (Nat × Nat))
  deriving DecidableEq, Repr

/-- mock_fsbl_SetATFHandoffParams: writes the XLNX tag (bytes 88,76,78,88)
only when EntryCount == 0, sets NumEntries = EntryCount + 1 (32-bit
addition), and fills Entry[EntryCount] when EntryCount < MAX_ENTRIES.
Arguments are uint32 values. -/
def mock_fsbl_SetATFHandoffParams (EntryCount PartitionHeader PartitionFlags : Nat) :
    ATFHandoffParamsStruct :=
  ⟨if EntryCount = 0 then some [0x58, 0x4C, 0x4E, 0x58] else none,
    (EntryCount + 1) % 2 ^ 32,
    if EntryCount < MAX_ENTRIES then
      (List.replicate MAX_ENTRIES none).set EntryCount (some (PartitionHeader, PartitionFlags))
    else List.replicate MAX_ENTRIES none⟩

/-- The uint32_t bl31_entrypoint = load_elf64("bl31.elf") of the APU main:
the uint64 return value (the entry point, or (uint64_t)-1 on failure)
truncated to 32 bits by the assignment. -/
def bl31Entrypoint (e1 : Env) : Nat :=
  (match (load_elf64 e1).result with
    | LoadResult.ok v => v
    | LoadResult.err _ => 2 ^ 64 - 1) % 2 ^ 32

/-- Event trace of main() of src/apu_bootloader_sd.c: load bl31.elf, load
u-boot.elf (second load starts from the memory the first one produced),
publish the handoff-descriptor address to GLOBAL_GEN_STORAGE6, assert the
APU reset (0xF), program the reset vectors, release the reset (0x0).
descAddr is the (stack) address of the descriptor the code publishes. -/
def apu_main (e1 e2 : Env) (descAddr : Nat) : List Ev :=
  (load_elf64 e1).trace
    ++ (load_elf64 ⟨e2.mountOk, e2.openOk, e2.allocOk, e2.file, (load_elf64 e1).mem⟩).trace
    ++ [Ev.regW GLOBAL_GEN_STORAGE6_ADDR descAddr]
    ++ reset_apu_cores 0xF
    ++ set_apu_rvba (bl31Entrypoint e1)
    ++ reset_apu_cores 0x0

/-- Checks that every memory-write event is immediately followed by a
cache-flush event over exactly the same byte range (which is how the C
code orders each chunk memcpy and its Xil_DCacheFlushRange call). -/
def chkFlushed : List Ev → Bool
  | [] => true
  | [e] =>
    match e with
    | Ev.memWrite _ _ => false
    | _ => true
  | e :: e2 :: r =>
    (match e with
      | Ev.memWrite a l => decide (e2 = Ev.flush a l)
      | _ => true) && chkFlushed (e2 :: r)

/-- Disjointness of the destination byte ranges two entries write
([vaddr, vaddr + max filesz memsz) each). -/
def disjointW (p q : Phdr) : Prop :=
  p.p_vaddr + max p.p_filesz p.p_memsz ≤ q.p_vaddr ∨
  q.p_vaddr + max q.p_filesz q.p_memsz ≤ p.p_vaddr

instance (p q : Phdr) : Decidable (disjointW p q) := by
  unfold disjointW
  exact inferInstance

/-- All-zero initial physical memory used by the concrete test images. -/
def zeroMem : Nat → Nat := fun _ => 0

/-- Build a file of the given length: zero bytes patched at the given
(position, byte) pairs. -/
def mkFile (len : Nat) (ps : List (Nat × Nat)) : List Nat :=
  ps.foldl (fun f p => f.set p.1 p.2) (List.replicate len 0)

/-- Well-formed 32-bit image: one LOAD entry, offset 84, vaddr 0x100,
filesz 8, memsz 12, entry point 0x8000; 8 data bytes at 84. -/
def envW1 : Env :=
  ⟨true, true, true,
    mkFile 92 [(0, 0x7f), (1, 0x45), (2, 0x4c), (3, 0x46), (24, 0x00), (25, 0x80),
      (28, 52), (44, 1), (52, 1), (56, 84), (61, 1), (68, 8), (72, 12),
      (84, 0x11), (85, 0x22), (86, 0x33), (87, 0x44), (88, 0x55), (89, 0x66), (90, 0x77), (91, 0x88)],
    zeroMem⟩

/-- 32-bit image with valid magic and table inside the file, whose single
entry has offset 100, filesz 200, exceeding the 200-byte file. -/
def envOob : Env :=
  ⟨true, true, true,
    mkFile 200 [(0, 0x7f), (1, 0x45), (2, 0x4c), (3, 0x46), (28, 52), (44, 1),
      (52, 1), (56, 100), (61, 4), (68, 200), (72, 200)],
    zeroMem⟩

/-- 32-bit image whose single entry has offset 100 and filesz 0xFFFFFFCE:
the exact sum 100 + 0xFFFFFFCE exceeds the 200-byte file, but the uint32
sum wraps to 50, so the bounds check passes; one data byte 0x37 at 100. -/
def envWrap : Env :=
  ⟨true, true, true,
    mkFile 200 [(0, 0x7f), (1, 0x45), (2, 0x4c), (3, 0x46), (28, 52), (44, 1),
      (52, 1), (56, 100), (61, 1), (68, 0xCE), (69, 0xFF), (70, 0xFF), (71, 0xFF),
      (100, 0x37)],
    zeroMem⟩

/-- 32-bit image whose single entry has offset 300 (past the 200-byte file)
and filesz 0xFFFFFF38, wrapping the uint32 bounds check to 100; the first
chunk read then returns zero bytes. -/
def envZR : Env :=
  ⟨true, true, true,
    mkFile 200 [(0, 0x7f), (1, 0x45), (2, 0x4c), (3, 0x46), (28, 52), (44, 1),
      (52, 1), (56, 0x2C), (57, 0x01), (61, 2), (68, 0x38), (69, 0xFF), (70, 0xFF), (71, 0xFF)],
    zeroMem⟩

/-- 32-bit image with one entry, filesz 4, memsz 12 (a BSS tail of 8 bytes
at 0x304). -/
def envBss : Env :=
  ⟨true, true, true,
    mkFile 88 [(0, 0x7f), (1, 0x45), (2, 0x4c), (3, 0x46), (28, 52), (44, 1),
      (52, 1), (56, 84), (61, 3), (68, 4), (72, 12),
      (84, 0xAA), (85, 0xBB), (86, 0xCC), (87, 0xDD)],
    zeroMem⟩

/-- 32-bit image whose single entry has p_type = 4 (PT_NOTE), in bounds,
with 8 data bytes at 84 (first byte 0x55), destination 0x200. -/
def envNoteIn : Env :=
  ⟨true, true, true,
    mkFile 92 [(0, 0x7f), (1, 0x45), (2, 0x4c), (3, 0x46), (28, 52), (44, 1),
      (52, 4), (56, 84), (61, 2), (68, 8), (72, 8),
      (84, 0x55), (85, 0x66), (86, 0x77), (87, 0x88)],
    zeroMem⟩

/-- 32-bit image whose single entry has p_type = 4 (PT_NOTE) and an
out-of-bounds extent (offset 100, filesz 200 against a 200-byte file). -/
def envNoteOob : Env :=
  ⟨true, true, true,
    mkFile 200 [(0, 0x7f), (1, 0x45), (2, 0x4c), (3, 0x46), (28, 52), (44, 1),
      (52, 4), (56, 100), (61, 6), (68, 200)],
    zeroMem⟩

/-- Empty file: the ELF header read returns 0 of 64 bytes, so the load
fails at the first gate. -/
def envFail : Env := ⟨true, true, true, [], zeroMem⟩

/-- 64-bit image with no program headers (e_phnum = 0, e_phoff = 32) and
e_entry = 2^32 + 0x1000, above the 32-bit range. -/
def envE64 : Env :=
  ⟨true, true, true,
    mkFile 64 [(0, 0x7f), (1, 0x45), (2, 0x4c), (3, 0x46), (25, 0x10), (28, 0x01), (32, 32)],
    zeroMem⟩

/-- Chunk-loop correctness: with enough fuel and the requested extent
inside the file, the loop succeeds and the resulting memory holds the file
bytes on [vaddr+loaded, vaddr+loaded+toRead) and is untouched elsewhere. -/
theorem copyChunks_spec (f : List Nat) :
    ∀ fuel toRead pos vaddr loaded mem, toRead ≤ fuel → pos + toRead ≤ f.length →
    (copyChunks f fuel mem pos vaddr loaded toRead).1 = true ∧
    ∀ a, (copyChunks f fuel mem pos vaddr loaded toRead).2.1 a =
      if vaddr + loaded ≤ a ∧ a < vaddr + loaded + toRead
      then f.getD (pos + (a - (vaddr + loaded))) 0 else mem a := by
  intro fuel
  induction fuel with
  | zero =>
    intro toRead pos vaddr loaded mem hf hle
    have h0 : toRead = 0 := Nat.le_zero.mp hf
    subst h0
    refine ⟨rfl, fun a => ?_⟩
    rw [if_neg (by omega)]
    rfl
  | succ fuel ih =>
    intro toRead pos vaddr loaded mem hf hle
    cases toRead with
    | zero =>
      refine ⟨rfl, fun a => ?_⟩
      rw [if_neg (by omega)]
      rfl
    | succ t =>
      have hcs : 0 < CHUNK_SIZE := by decide
      simp only [copyChunks]
      generalize hq : (if t + 1 > CHUNK_SIZE then CHUNK_SIZE else t + 1) = q
      have h1 : q ≤ t + 1 := by rw [← hq]; split <;> omega
      have h2 : 1 ≤ q := by rw [← hq]; split <;> omega
      have hg : min q (f.length - pos) = q := Nat.min_eq_left (by omega)
      rw [hg, if_neg (by omega : ¬ q = 0)]
      obtain ⟨hok, hmem⟩ := ih (t + 1 - q) (pos + q) vaddr (loaded + q)
        (fun a => if vaddr + loaded ≤ a ∧ a < vaddr + loaded + q
          then f.getD (pos + (a - (vaddr + loaded))) 0 else mem a)
        (by omega) (by omega)
      refine ⟨hok, fun a => ?_⟩
      rw [hmem a]
      by_cases hca : vaddr + (loaded + q) ≤ a ∧ a < vaddr + (loaded + q) + (t + 1 - q)
      · rw [if_pos hca, if_pos (by omega)]
        congr 1
        omega
      · rw [if_neg hca]
        by_cases hin : vaddr + loaded ≤ a ∧ a < vaddr + loaded + q
        · rw [if_pos hin, if_pos (by omega)]
        · rw [if_neg hin, if_neg (by omega)]

/-- Chunk-loop frame property: whatever the outcome, the loop writes only
inside [vaddr+loaded, vaddr+loaded+toRead). -/
theorem copyChunks_frame (f : List Nat) :
    ∀ fuel toRead pos vaddr loaded mem a,
    (a < vaddr + loaded ∨ vaddr + loaded + toRead ≤ a) →
    (copyChunks f fuel mem pos vaddr loaded toRead).2.1 a = mem a := by
  intro fuel
  induction fuel with
  | zero =>
    intro toRead pos vaddr loaded mem a _
    cases toRead with
    | zero => rfl
    | succ t => rfl
  | succ fuel ih =>
    intro toRead pos vaddr loaded mem a hout
    cases toRead with
    | zero => rfl
    | succ t =>
      simp only [copyChunks]
      generalize hq : (if t + 1 > CHUNK_SIZE then CHUNK_SIZE else t + 1) = q
      have h1 : q ≤ t + 1 := by rw [← hq]; split <;> omega
      have hgle : min q (f.length - pos) ≤ t + 1 :=
        le_trans (Nat.min_le_left _ _) h1
      by_cases h0 : min q (f.length - pos) = 0
      · rw [if_pos h0]
      · rw [if_neg h0]
        rw [ih _ _ _ _ _ _ (by omega)]
        rw [if_neg (by omega)]

/-- Per-entry correctness: an entry whose exact extent offset+filesz lies
inside the file passes the bounds check, loads completely, and the memory
afterwards holds the file bytes on [vaddr, vaddr+filesz), zeros on
[vaddr+filesz, vaddr+memsz), and its old content elsewhere. -/
theorem loadEntry_inBounds (w : Nat) (f : List Nat) (mem : Nat → Nat) (ph : Phdr)
    (h : ph.p_offset + ph.p_filesz ≤ f.length) :
    (loadEntry w f mem ph).1 = none ∧
    ∀ a, (loadEntry w f mem ph).2.1 a =
      if ph.p_vaddr ≤ a ∧ a < ph.p_vaddr + ph.p_filesz
      then f.getD (ph.p_offset + (a - ph.p_vaddr)) 0
      else if ph.p_vaddr + ph.p_filesz ≤ a ∧ a < ph.p_vaddr + ph.p_memsz then 0
      else mem a := by
  have hmod : ¬ ((ph.p_offset + ph.p_filesz) % 2 ^ w > f.length) := by
    have h2 := Nat.mod_le (ph.p_offset + ph.p_filesz) (2 ^ w)
    omega
  obtain ⟨hok, hmem⟩ :=
    copyChunks_spec f ph.p_filesz ph.p_filesz ph.p_offset ph.p_vaddr 0 mem (le_refl _) h
  simp only [Nat.add_zero] at hmem
  simp only [loadEntry]
  rw [if_neg hmod, if_pos hok]
  by_cases hbss : ph.p_memsz > ph.p_filesz
  · rw [if_pos hbss]
    refine ⟨rfl, fun a => ?_⟩
    dsimp only
    by_cases h1 : ph.p_vaddr ≤ a ∧ a < ph.p_vaddr + ph.p_filesz
    · rw [if_neg (by omega), hmem a, if_pos h1, if_pos h1]
    · rw [if_neg h1]
      by_cases h2 : ph.p_vaddr + ph.p_filesz ≤ a ∧ a < ph.p_vaddr + ph.p_memsz
      · rw [if_pos (by omega), if_pos h2]
      · rw [if_neg (by omega), hmem a, if_neg h1, if_neg h2]
  · rw [if_neg hbss]
    refine ⟨rfl, fun a => ?_⟩
    rw [hmem a]
    by_cases h1 : ph.p_vaddr ≤ a ∧ a < ph.p_vaddr + ph.p_filesz
    · rw [if_pos h1, if_pos h1]
    · rw [if_neg h1, if_neg h1, if_neg (by omega)]

/-- Per-entry frame property: whatever the outcome, processing one entry
writes only inside [vaddr, vaddr + max filesz memsz). -/
theorem loadEntry_frame (w : Nat) (f : List Nat) (mem : Nat → Nat) (ph : Phdr) (a : Nat)
    (hout : a < ph.p_vaddr ∨ ph.p_vaddr + max ph.p_filesz ph.p_memsz ≤ a) :
    (loadEntry w f mem ph).2.1 a = mem a := by
  simp only [loadEntry]
  by_cases hmod : (ph.p_offset + ph.p_filesz) % 2 ^ w > f.length
  · rw [if_pos hmod]
  · rw [if_neg hmod]
    have hframe := copyChunks_frame f ph.p_filesz ph.p_filesz ph.p_offset ph.p_vaddr 0 mem a
      (by omega)
    by_cases hb : (copyChunks f ph.p_filesz mem ph.p_offset ph.p_vaddr 0 ph.p_filesz).1 = true
    · rw [if_pos hb]
      by_cases hbss : ph.p_memsz > ph.p_filesz
      · rw [if_pos hbss]
        dsimp only
        rw [if_neg (by omega)]
        exact hframe
      · rw [if_neg hbss]
        exact hframe
    · rw [if_neg hb]
      exact hframe

/-- Frame property of the entry loop: an address outside every entry's
write range keeps its old content. -/
theorem loadEntries_frame (w : Nat) (f : List Nat) :
    ∀ (entries : List Phdr) (mem : Nat → Nat) (a : Nat),
    (∀ ph ∈ entries, a < ph.p_vaddr ∨ ph.p_vaddr + max ph.p_filesz ph.p_memsz ≤ a) →
    (loadEntries w f mem entries).2.1 a = mem a := by
  intro entries
  induction entries with
  | nil => intro mem a _; rfl
  | cons ph rest ih =>
    intro mem a hout
    simp only [loadEntries]
    cases h : (loadEntry w f mem ph).1 with
    | some e =>
      simp only [h]
      exact loadEntry_frame w f mem ph a (hout ph (List.mem_cons_self _ _))
    | none =>
      simp only [h]
      rw [ih _ _ (fun q hq => hout q (List.mem_cons_of_mem _ hq))]
      exact loadEntry_frame w f mem ph a (hout ph (List.mem_cons_self _ _))

/-- Entry-loop correctness: when every entry's exact extent is inside the
file and the destination ranges are pairwise disjoint, the loop succeeds
and, for each entry, the final memory holds the file bytes on
[vaddr, vaddr+filesz) and zeros on [vaddr+filesz, vaddr+memsz). -/
theorem loadEntries_inBounds (w : Nat) (f : List Nat) :
    ∀ (entries : List Phdr) (mem : Nat → Nat),
    (∀ ph ∈ entries, ph.p_offset + ph.p_filesz ≤ f.length) →
    List.Pairwise disjointW entries →
    (loadEntries w f mem entries).1 = none ∧
    ∀ ph ∈ entries, ∀ a,
      (ph.p_vaddr ≤ a ∧ a < ph.p_vaddr + ph.p_filesz →
        (loadEntries w f mem entries).2.1 a = f.getD (ph.p_offset + (a - ph.p_vaddr)) 0) ∧
      (ph.p_vaddr + ph.p_filesz ≤ a ∧ a < ph.p_vaddr + ph.p_memsz →
        (loadEntries w f mem entries).2.1 a = 0) := by
  intro entries
  induction entries with
  | nil =>
    intro mem _ _
    exact ⟨rfl, fun ph hph => absurd hph (List.not_mem_nil _)⟩
  | cons ph rest ih =>
    intro mem hin hpw
    obtain ⟨h1, hmem1⟩ := loadEntry_inBounds w f mem ph (hin ph (List.mem_cons_self _ _))
    have hdisj := (List.pairwise_cons.mp hpw).1
    obtain ⟨hnone2, hrest⟩ := ih (loadEntry w f mem ph).2.1
      (fun q hq => hin q (List.mem_cons_of_mem _ hq)) (List.pairwise_cons.mp hpw).2
    simp only [loadEntries, h1]
    refine ⟨hnone2, fun q hq a => ?_⟩
    rcases List.mem_cons.mp hq with hh | hh
    · subst hh
      have hfr : ∀ (hin2 : q.p_vaddr ≤ a) (hhi : a < q.p_vaddr + max q.p_filesz q.p_memsz),
          (loadEntries w f (loadEntry w f mem q).2.1 rest).2.1 a = (loadEntry w f mem q).2.1 a := by
        intro hin2 hhi
        refine loadEntries_frame w f rest _ a (fun r hr => ?_)
        have hd := hdisj r hr
        unfold disjointW at hd
        omega
      constructor
      · intro hcopy
        rw [hfr (by omega) (by omega), hmem1 a, if_pos hcopy]
      · intro hz
        rw [hfr (by omega) (by omega), hmem1 a, if_neg (by omega), if_pos hz]
    · exact hrest q hh a

/-- Pipeline unfolding: when mount, open and allocation succeed, the header
is readable, the magic matches, e_phoff is inside the file and the table
fits, load_elf reduces to the entry loop (with the fixed prefix/suffix
events around it). -/
theorem load_elf_guards (w : Nat) (env : Env)
    (hm : env.mountOk = true) (ho : env.openOk = true) (ha : env.allocOk = true)
    (hh : ehdrSize w ≤ env.file.length) (hmg : validMagic env.file = true)
    (hpo : e_phoff w env.file < env.file.length)
    (hpt : e_phoff w env.file + e_phnum w env.file * phdrSize w ≤ env.file.length) :
    load_elf w env =
      ⟨(match (loadEntries w env.file env.mem0 (phdrs w env.file)).1 with
        | some e => LoadResult.err e
        | none => LoadResult.ok (e_entry w env.file % 2 ^ 32)),
       (loadEntries w env.file env.mem0 (phdrs w env.file)).2.1,
       [Ev.openF, Ev.readHdr (ehdrSize w) (ehdrSize w), Ev.alloc,
        Ev.readTbl (e_phnum w env.file * phdrSize w) (e_phnum w env.file * phdrSize w)]
         ++ (loadEntries w env.file env.mem0 (phdrs w env.file)).2.2
         ++ [Ev.freeA, Ev.closeF]⟩ := by
  simp only [load_elf]
  rw [if_neg (by simp [hm]), if_neg (by simp [ho]),
    if_neg (by simp [Nat.min_eq_left hh]),
    if_neg (by simp [hmg]),
    if_neg (by omega),
    if_neg (by simp [ha]),
    if_neg (by simp [Nat.min_eq_left
      (show e_phnum w env.file * phdrSize w ≤ env.file.length - e_phoff w env.file by omega)])]
  cases (loadEntries w env.file env.mem0 (phdrs w env.file)).1 <;> rfl

/-- C1 (amended): for an image with a valid magic, a readable header, a
program-header table fully inside the file, every entry's exact extent
offset+filesz inside the file, and pairwise disjoint destination ranges
(and a working storage/allocator environment), loading succeeds with the
header's entry point, and after the load every entry's destination range
[vaddr, vaddr+filesz) equals the file bytes at [offset, offset+filesz)
while [vaddr+filesz, vaddr+memsz) is all zero. -/
theorem C1_load_correct (w : Nat) (env : Env)
    (hm : env.mountOk = true) (ho : env.openOk = true) (ha : env.allocOk = true)
    (hh : ehdrSize w ≤ env.file.length) (hmg : validMagic env.file = true)
    (hpo : e_phoff w env.file < env.file.length)
    (hpt : e_phoff w env.file + e_phnum w env.file * phdrSize w ≤ env.file.length)
    (hib : ∀ ph ∈ phdrs w env.file, ph.p_offset + ph.p_filesz ≤ env.file.length)
    (hdis : List.Pairwise disjointW (phdrs w env.file)) :
    (load_elf w env).result = LoadResult.ok (e_entry w env.file % 2 ^ 32) ∧
    ∀ ph ∈ phdrs w env.file, ∀ a,
      (ph.p_vaddr ≤ a ∧ a < ph.p_vaddr + ph.p_filesz →
        (load_elf w env).mem a = env.file.getD (ph.p_offset + (a - ph.p_vaddr)) 0) ∧
      (ph.p_vaddr + ph.p_filesz ≤ a ∧ a < ph.p_vaddr + ph.p_memsz →
        (load_elf w env).mem a = 0) := by
  obtain ⟨hnone, hmem⟩ := loadEntries_inBounds w env.file (phdrs w env.file) env.mem0 hib hdis
  rw [load_elf_guards w env hm ho ha hh hmg hpo hpt]
  simp only [hnone]
  exact ⟨by trivial, hmem⟩

/-- Entry loop on a list A ++ phx :: B where every entry of A is exactly in
bounds and phx fails the (modular) bounds check: the loop stops at phx with
the out-of-bounds failure, and addresses outside the A entries' ranges are
untouched. -/
theorem loadEntries_prefix_oob (w : Nat) (f : List Nat) (phx : Phdr) (B : List Phdr)
    (hOOB : (phx.p_offset + phx.p_filesz) % 2 ^ w > f.length) :
    ∀ (A : List Phdr) (mem : Nat → Nat),
    (∀ q ∈ A, q.p_offset + q.p_filesz ≤ f.length) →
    (loadEntries w f mem (A ++ phx :: B)).1 = some LoadErr.segmentOutOfBounds ∧
    ∀ a, (∀ q ∈ A, a < q.p_vaddr ∨ q.p_vaddr + max q.p_filesz q.p_memsz ≤ a) →
      (loadEntries w f mem (A ++ phx :: B)).2.1 a = mem a := by
  intro A
  induction A with
  | nil =>
    intro mem _
    simp only [List.nil_append, loadEntries, loadEntry, if_pos hOOB]
    exact ⟨by trivial, fun a _ => by trivial⟩
  | cons q A ih =>
    intro mem hA
    obtain ⟨h1, _⟩ := loadEntry_inBounds w f mem q (hA q (List.mem_cons_self _ _))
    simp only [List.cons_append, loadEntries, h1, List.append_eq]
    obtain ⟨ih1, ih2⟩ := ih (loadEntry w f mem q).2.1
      (fun r hr => hA r (List.mem_cons_of_mem _ hr))
    refine ⟨ih1, fun a hout => ?_⟩
    rw [ih2 a (fun r hr => hout r (List.mem_cons_of_mem _ hr))]
    exact loadEntry_frame w f mem q a (hout q (List.mem_cons_self _ _))

/-- C3 (amended): when the program-header table splits as A ++ phx :: B
with every entry of A exactly in bounds and phx failing the loader's w-bit
bounds check (offset+filesz mod 2^w exceeding the file size), the load
fails at phx with the out-of-bounds error, and — provided phx's destination
range is disjoint from the A entries' ranges — no byte of phx's destination
is written. -/
theorem C3_bounds_check (w : Nat) (env : Env) (A B : List Phdr) (phx : Phdr)
    (hm : env.mountOk = true) (ho : env.openOk = true) (ha : env.allocOk = true)
    (hh : ehdrSize w ≤ env.file.length) (hmg : validMagic env.file = true)
    (hpo : e_phoff w env.file < env.file.length)
    (hpt : e_phoff w env.file + e_phnum w env.file * phdrSize w ≤ env.file.length)
    (hsplit : phdrs w env.file = A ++ phx :: B)
    (hA : ∀ q ∈ A, q.p_offset + q.p_filesz ≤ env.file.length)
    (hOOB : (phx.p_offset + phx.p_filesz) % 2 ^ w > env.file.length)
    (hdisA : ∀ q ∈ A, disjointW q phx) :
    (load_elf w env).result = LoadResult.err LoadErr.segmentOutOfBounds ∧
    ∀ a, phx.p_vaddr ≤ a → a < phx.p_vaddr + max phx.p_filesz phx.p_memsz →
      (load_elf w env).mem a = env.mem0 a := by
  obtain ⟨h1, h2⟩ := loadEntries_prefix_oob w env.file phx B hOOB A env.mem0 hA
  rw [load_elf_guards w env hm ho ha hh hmg hpo hpt]
  simp only [hsplit, h1]
  refine ⟨by trivial, fun a hlo hhi => ?_⟩
  refine h2 a (fun q hq => ?_)
  have hd := hdisA q hq
  unfold disjointW at hd
  omega

/-- C1 counterexample: envOob has a valid ELF magic and its program-header
table fully inside the file, yet loading fails (its single entry's extent
exceeds the file), so loading does not succeed for every such image. -/
theorem C1_counterexample :
    validMagic envOob.file = true ∧
    e_phoff 32 envOob.file < envOob.file.length ∧
    e_phoff 32 envOob.file + e_phnum 32 envOob.file * phdrSize 32 ≤ envOob.file.length ∧
    (load_elf32 envOob).result = LoadResult.err LoadErr.segmentOutOfBounds := by
  decide

/-- C1 witness: C1_load_correct applied to the concrete image envW1 (one
entry, offset 84, vaddr 0x100, filesz 8, memsz 12, entry point 0x8000). -/
theorem C1_load_correct_witness :
    (load_elf 32 envW1).result = LoadResult.ok (e_entry 32 envW1.file % 2 ^ 32) ∧
    (load_elf 32 envW1).mem 0x100 = envW1.file.getD (84 + (0x100 - 0x100)) 0 ∧
    (load_elf 32 envW1).mem 0x108 = 0 := by
  have h := C1_load_correct 32 envW1 (by decide) (by decide) (by decide) (by decide)
    (by decide) (by decide) (by decide) (by decide) (by decide)
  exact ⟨h.1,
    (h.2 ⟨1, 84, 0x100, 8, 12⟩ (by decide) 0x100).1 (by decide),
    (h.2 ⟨1, 84, 0x100, 8, 12⟩ (by decide) 0x108).2 (by decide)⟩

/-- C2 counterexample: the single entry of envNoteIn has p_type 4 (PT_NOTE,
not LOAD), yet the loader copies its bytes (destination byte 0x200 changes
from 0 to the file byte 0x55); the single entry of envNoteOob also has
p_type 4, yet the loader validates its extent and fails the load with the
out-of-bounds error instead of skipping it. -/
theorem C2_counterexample :
    ((phdrs 32 envNoteIn.file).getD 0 ⟨0, 0, 0, 0, 0⟩).p_type = 4 ∧
    (load_elf32 envNoteIn).mem 0x200 = 0x55 ∧
    envNoteIn.mem0 0x200 = 0 ∧
    ((phdrs 32 envNoteOob.file).getD 0 ⟨0, 0, 0, 0, 0⟩).p_type = 4 ∧
    (load_elf32 envNoteOob).result = LoadResult.err LoadErr.segmentOutOfBounds := by
  decide

/-- C2 (amended): the loader never inspects the segment type: replacing
every entry's p_type by anything whatsoever leaves the entry loop's
outcome — failure value, final memory and event trace — unchanged, i.e.
every entry is validated and copied exactly as a LOAD entry would be. -/
theorem C2_type_ignored (w : Nat) (f : List Nat) (mem : Nat → Nat)
    (entries : List Phdr) (g : Phdr → Nat) :
    loadEntries w f mem
      (entries.map fun ph => ⟨g ph, ph.p_offset, ph.p_vaddr, ph.p_filesz, ph.p_memsz⟩) =
      loadEntries w f mem entries := by
  induction entries generalizing mem with
  | nil => rfl
  | cons ph rest ih =>
    have he : loadEntry w f mem ⟨g ph, ph.p_offset, ph.p_vaddr, ph.p_filesz, ph.p_memsz⟩ =
        loadEntry w f mem ph := by
      cases ph
      rfl
    simp only [List.map_cons, loadEntries, he]
    cases h : (loadEntry w f mem ph).1 with
    | some e => rfl
    | none => rw [ih]

/-- C3 counterexample: envWrap's single entry has offset 100 and filesz
0xFFFFFFCE, whose exact sum exceeds the 200-byte file, but the 32-bit sum
wraps to 50, so the bounds check passes: the load fails later with the
short-read error, not the out-of-bounds one, and 100 bytes of the segment
were already copied (destination byte 0x100 now holds the file byte 0x37). -/
theorem C3_counterexample :
    ((phdrs 32 envWrap.file).getD 0 ⟨0, 0, 0, 0, 0⟩).p_offset = 100 ∧
    ((phdrs 32 envWrap.file).getD 0 ⟨0, 0, 0, 0, 0⟩).p_filesz = 0xFFFFFFCE ∧
    100 + 0xFFFFFFCE > envWrap.file.length ∧
    (load_elf32 envWrap).result = LoadResult.err LoadErr.shortSegmentRead ∧
    (load_elf32 envWrap).mem 0x100 = 0x37 ∧
    envWrap.mem0 0x100 = 0 := by
  decide

/-- C3 witness: C3_bounds_check applied to envOob, whose single entry
(offset 100, filesz 200) fails the bounds check without wrap-around. -/
theorem C3_bounds_check_witness :
    (load_elf 32 envOob).result = LoadResult.err LoadErr.segmentOutOfBounds ∧
    (load_elf 32 envOob).mem 0x400 = envOob.mem0 0x400 := by
  have h := C3_bounds_check 32 envOob [] [] ⟨1, 100, 0x400, 200, 200⟩
    (by decide) (by decide) (by decide) (by decide) (by decide) (by decide) (by decide)
    (by decide) (by decide) (by decide) (by decide)
  exact ⟨h.1, h.2 0x400 (by decide) (by decide)⟩

/-- C5 evidence: envBss loads successfully, its trace contains the
zero-fill write of the 8 BSS bytes at 0x304, and the trace violates the
write-then-flush discipline: that memset write is not followed by a cache
flush of the bytes it wrote (the chunk copies are flushed, the zero-fill
tail is not). -/
theorem C5_unflushed_zero_fill :
    (load_elf32 envBss).result = LoadResult.ok 0 ∧
    Ev.memWrite 0x304 8 ∈ (load_elf32 envBss).trace ∧
    chkFlushed (load_elf32 envBss).trace = false := by
  decide

/-- C6 evidence: with an empty bl31.elf the load fails at the header read,
returning the failure value; the APU main nevertheless performs the whole
multi-core handoff — it publishes the descriptor, asserts reset, programs
every reset vector with the truncated failure value 0xFFFFFFFF, and
releases the cores from reset. -/
theorem C6_no_gating :
    (load_elf64 envFail).result = LoadResult.err LoadErr.headerShortRead ∧
    regWrites (apu_main envFail envFail 0) =
      [Ev.regW GLOBAL_GEN_STORAGE6_ADDR 0, Ev.regW RST_FPD_APU_ADDR 0xF]
        ++ set_apu_rvba 0xFFFFFFFF ++ [Ev.regW RST_FPD_APU_ADDR 0] := by
  decide

/-- C7 counterexample: envE64 declares e_entry = 2^32 + 4096 and loads
successfully, but load_elf64 returns 4096 — the entry point truncated to
32 bits, not the e_entry field unmodified. -/
theorem C7_counterexample :
    e_entry 64 envE64.file = 2 ^ 32 + 4096 ∧
    (load_elf64 envE64).result = LoadResult.ok 4096 ∧
    (4096 : Nat) ≠ 2 ^ 32 + 4096 := by
  decide

/-- C7 (amended): whenever load_elf64 succeeds, the value it returns is
exactly the header's e_entry field reduced modulo 2^32 (the uint32_t
entry_point assignment of the source); it equals e_entry itself precisely
when e_entry fits in 32 bits. -/
theorem C7_entry_truncated (env : Env) (v : Nat)
    (h : (load_elf64 env).result = LoadResult.ok v) :
    v = e_entry 64 env.file % 2 ^ 32 := by
  simp only [load_elf64, load_elf] at h
  repeat' split at h
  all_goals simp_all

/-- C7 witness: C7_entry_truncated applied to envE64. -/
theorem C7_entry_truncated_witness :
    (load_elf64 envE64).result = LoadResult.ok 4096 ∧
    4096 = e_entry 64 envE64.file % 2 ^ 32 :=
  ⟨by decide, C7_entry_truncated envE64 4096 (by decide)⟩

/-- C10: mock_fsbl_SetATFHandoffParams writes the XLNX magic tag exactly
when EntryCount is zero — for every nonzero (uint32) EntryCount the
MagicValue field stays unwritten — while NumEntries is always set to
EntryCount + 1 (the source's 32-bit addition). -/
theorem C10_handoff_magic (ec ph pf : Nat) (_hec : ec < 2 ^ 32) :
    ((ec = 0 →
        (mock_fsbl_SetATFHandoffParams ec ph pf).MagicValue = some [0x58, 0x4C, 0x4E, 0x58]) ∧
      (ec ≠ 0 → (mock_fsbl_SetATFHandoffParams ec ph pf).MagicValue = none)) ∧
    (mock_fsbl_SetATFHandoffParams ec ph pf).NumEntries = (ec + 1) % 2 ^ 32 := by
  refine ⟨⟨fun h => ?_, fun h => ?_⟩, rfl⟩
  · simp [mock_fsbl_SetATFHandoffParams, h]
  · simp [mock_fsbl_SetATFHandoffParams, h]

/-- C10 witness: C10_handoff_magic applied at EntryCount 5. -/
theorem C10_handoff_magic_witness :
    (5 : Nat) < 2 ^ 32 ∧
    ((((5 : Nat) = 0 →
        (mock_fsbl_SetATFHandoffParams 5 7 9).MagicValue = some [0x58, 0x4C, 0x4E, 0x58]) ∧
      ((5 : Nat) ≠ 0 → (mock_fsbl_SetATFHandoffParams 5 7 9).MagicValue = none)) ∧
    (mock_fsbl_SetATFHandoffParams 5 7 9).NumEntries = (5 + 1) % 2 ^ 32) :=
  ⟨by decide, C10_handoff_magic 5 7 9 (by decide)⟩

/-- Events of the chunk loop are chunk events (reads, memory writes,
cache flushes). -/
theorem copyChunks_evs_chunk (f : List Nat) :
    ∀ fuel mem pos vaddr loaded toRead x,
    x ∈ (copyChunks f fuel mem pos vaddr loaded toRead).2.2 → chunkEv x = true := by
  intro fuel
  induction fuel with
  | zero =>
    intro mem pos vaddr loaded toRead x hx
    cases toRead with
    | zero => exact absurd hx (List.not_mem_nil _)
    | succ t => exact absurd hx (List.not_mem_nil _)
  | succ fuel ih =>
    intro mem pos vaddr loaded toRead x hx
    cases toRead with
    | zero => exact absurd hx (List.not_mem_nil _)
    | succ t =>
      simp only [copyChunks] at hx
      by_cases h0 : min (if t + 1 > CHUNK_SIZE then CHUNK_SIZE else t + 1) (f.length - pos) = 0
      · rw [if_pos h0] at hx
        rcases List.mem_singleton.mp hx with rfl
        rfl
      · rw [if_neg h0] at hx
        simp only [List.mem_cons] at hx
        rcases hx with h | h | h | h
        · subst h; rfl
        · subst h; rfl
        · subst h; rfl
        · exact ih _ _ _ _ _ _ h

/-- Events of one entry's processing are chunk events. -/
theorem loadEntry_evs_chunk (w : Nat) (f : List Nat) (mem : Nat → Nat) (ph : Phdr) (x : Ev)
    (hx : x ∈ (loadEntry w f mem ph).2.2) : chunkEv x = true := by
  simp only [loadEntry] at hx
  by_cases hmod : (ph.p_offset + ph.p_filesz) % 2 ^ w > f.length
  · rw [if_pos hmod] at hx
    exact absurd hx (List.not_mem_nil _)
  · rw [if_neg hmod] at hx
    by_cases hb : (copyChunks f ph.p_filesz mem ph.p_offset ph.p_vaddr 0 ph.p_filesz).1 = true
    · rw [if_pos hb] at hx
      by_cases hbss : ph.p_memsz > ph.p_filesz
      · rw [if_pos hbss] at hx
        simp only [List.mem_append, List.mem_singleton] at hx
        rcases hx with h | h
        · exact copyChunks_evs_chunk f _ _ _ _ _ _ x h
        · subst h; rfl
      · rw [if_neg hbss] at hx
        exact copyChunks_evs_chunk f _ _ _ _ _ _ x hx
    · rw [if_neg hb] at hx
      exact copyChunks_evs_chunk f _ _ _ _ _ _ x hx

/-- Events of the entry loop are chunk events. -/
theorem loadEntries_evs_chunk (w : Nat) (f : List Nat) :
    ∀ entries mem x, x ∈ (loadEntries w f mem entries).2.2 → chunkEv x = true := by
  intro entries
  induction entries with
  | nil => intro mem x hx; exact absurd hx (List.not_mem_nil _)
  | cons ph rest ih =>
    intro mem x hx
    simp only [loadEntries] at hx
    cases h : (loadEntry w f mem ph).1 with
    | some e =>
      simp only [h] at hx
      exact loadEntry_evs_chunk w f mem ph x hx
    | none =>
      simp only [h] at hx
      simp only [List.mem_append] at hx
      rcases hx with hh | hh
      · exact loadEntry_evs_chunk w f mem ph x hh
      · exact ih _ x hh

/-- Case analysis of a load's trace: either it comes from a branch that
performed no chunk read at all, or the entry loop ran and the trace is the
fixed prefix, the loop's events, and the cleanup suffix, with the result
determined by the loop's outcome. -/
theorem load_elf_chunk_shape (w : Nat) (env : Env) :
    (∀ r g, Ev.readChunk r g ∉ (load_elf w env).trace) ∨
    ((load_elf w env).trace =
        [Ev.openF, Ev.readHdr (ehdrSize w) (ehdrSize w), Ev.alloc,
          Ev.readTbl (e_phnum w env.file * phdrSize w) (e_phnum w env.file * phdrSize w)]
          ++ (loadEntries w env.file env.mem0 (phdrs w env.file)).2.2 ++ [Ev.freeA, Ev.closeF] ∧
      (load_elf w env).result =
        (match (loadEntries w env.file env.mem0 (phdrs w env.file)).1 with
          | some e => LoadResult.err e
          | none => LoadResult.ok (e_entry w env.file % 2 ^ 32))) := by
  by_cases h1 : env.mountOk = false
  · refine Or.inl (fun r g hx => ?_)
    simp only [load_elf, if_pos h1] at hx
    exact absurd hx (List.not_mem_nil _)
  by_cases h2 : env.openOk = false
  · refine Or.inl (fun r g hx => ?_)
    simp only [load_elf, if_neg h1, if_pos h2] at hx
    exact absurd hx (List.not_mem_nil _)
  by_cases h3 : min (ehdrSize w) env.file.length ≠ ehdrSize w
  · refine Or.inl (fun r g hx => ?_)
    simp only [load_elf, if_neg h1, if_neg h2, if_pos h3] at hx
    simp only [List.mem_cons, List.not_mem_nil, or_false] at hx
    rcases hx with h | h | h <;> exact Ev.noConfusion h
  by_cases h4 : validMagic env.file = false
  · refine Or.inl (fun r g hx => ?_)
    simp only [load_elf, if_neg h1, if_neg h2, if_neg h3, if_pos h4] at hx
    simp only [List.mem_cons, List.not_mem_nil, or_false] at hx
    rcases hx with h | h | h <;> exact Ev.noConfusion h
  by_cases h5 : e_phoff w env.file ≥ env.file.length
  · refine Or.inl (fun r g hx => ?_)
    simp only [load_elf, if_neg h1, if_neg h2, if_neg h3, if_neg h4, if_pos h5] at hx
    simp only [List.mem_cons, List.not_mem_nil, or_false] at hx
    rcases hx with h | h | h <;> exact Ev.noConfusion h
  by_cases h6 : env.allocOk = false
  · refine Or.inl (fun r g hx => ?_)
    simp only [load_elf, if_neg h1, if_neg h2, if_neg h3, if_neg h4, if_neg h5, if_pos h6] at hx
    simp only [List.mem_cons, List.not_mem_nil, or_false] at hx
    rcases hx with h | h | h <;> exact Ev.noConfusion h
  by_cases h7 : min (e_phnum w env.file * phdrSize w) (env.file.length - e_phoff w env.file)
      ≠ e_phnum w env.file * phdrSize w
  · refine Or.inl (fun r g hx => ?_)
    simp only [load_elf, if_neg h1, if_neg h2, if_neg h3, if_neg h4, if_neg h5, if_neg h6,
      if_pos h7] at hx
    simp only [List.mem_cons, List.not_mem_nil, or_false] at hx
    rcases hx with h | h | h | h | h | h <;> exact Ev.noConfusion h
  cases heq : (loadEntries w env.file env.mem0 (phdrs w env.file)).1 with
  | some e =>
    refine Or.inr ⟨?_, ?_⟩
    · simp only [load_elf, if_neg h1, if_neg h2, if_neg h3, if_neg h4, if_neg h5, if_neg h6,
        if_neg h7, heq]
    · simp only [load_elf, if_neg h1, if_neg h2, if_neg h3, if_neg h4, if_neg h5, if_neg h6,
        if_neg h7, heq]
  | none =>
    refine Or.inr ⟨?_, ?_⟩
    · simp only [load_elf, if_neg h1, if_neg h2, if_neg h3, if_neg h4, if_neg h5, if_neg h6,
        if_neg h7, heq]
    · simp only [load_elf, if_neg h1, if_neg h2, if_neg h3, if_neg h4, if_neg h5, if_neg h6,
        if_neg h7, heq]

/-- A completed chunk loop performed no zero-byte read. -/
theorem copyChunks_ok_no_zero (f : List Nat) :
    ∀ fuel mem pos vaddr loaded toRead req,
    (copyChunks f fuel mem pos vaddr loaded toRead).1 = true →
    Ev.readChunk req 0 ∉ (copyChunks f fuel mem pos vaddr loaded toRead).2.2 := by
  intro fuel
  induction fuel with
  | zero =>
    intro mem pos vaddr loaded toRead req _
    cases toRead with
    | zero => exact List.not_mem_nil _
    | succ t => exact List.not_mem_nil _
  | succ fuel ih =>
    intro mem pos vaddr loaded toRead req hok
    cases toRead with
    | zero => exact List.not_mem_nil _
    | succ t =>
      simp only [copyChunks] at hok ⊢
      by_cases h0 : min (if t + 1 > CHUNK_SIZE then CHUNK_SIZE else t + 1) (f.length - pos) = 0
      · rw [if_pos h0] at hok
        exact absurd hok (by simp)
      · rw [if_neg h0] at hok ⊢
        intro hx
        simp only [List.mem_cons] at hx
        rcases hx with h | h | h | h
        · injection h with h1 h2
          omega
        · exact Ev.noConfusion h
        · exact Ev.noConfusion h
        · exact ih _ _ _ _ _ req hok h

/-- A failed chunk loop's event list is a clean prefix followed by exactly
one zero-byte read, its last event. -/
theorem copyChunks_fail_shape (f : List Nat) :
    ∀ fuel toRead pos vaddr loaded mem, toRead ≤ fuel →
    (copyChunks f fuel mem pos vaddr loaded toRead).1 = false →
    ∃ pre r, (copyChunks f fuel mem pos vaddr loaded toRead).2.2 = pre ++ [Ev.readChunk r 0] ∧
      ∀ s, Ev.readChunk s 0 ∉ pre := by
  intro fuel
  induction fuel with
  | zero =>
    intro toRead pos vaddr loaded mem hf hfail
    have h0 : toRead = 0 := Nat.le_zero.mp hf
    subst h0
    exact absurd hfail (by simp [copyChunks])
  | succ fuel ih =>
    intro toRead pos vaddr loaded mem hf hfail
    cases toRead with
    | zero => exact absurd hfail (by simp [copyChunks])
    | succ t =>
      simp only [copyChunks] at hfail ⊢
      by_cases h0 : min (if t + 1 > CHUNK_SIZE then CHUNK_SIZE else t + 1) (f.length - pos) = 0
      · rw [if_pos h0] at hfail ⊢
        exact ⟨[], _, rfl, fun s => List.not_mem_nil _⟩
      · rw [if_neg h0] at hfail ⊢
        have h2 : 1 ≤ min (if t + 1 > CHUNK_SIZE then CHUNK_SIZE else t + 1) (f.length - pos) := by
          omega
        obtain ⟨pre, r, hsh, hcl⟩ := ih (t + 1 - min (if t + 1 > CHUNK_SIZE then CHUNK_SIZE else t + 1) (f.length - pos))
          (pos + min (if t + 1 > CHUNK_SIZE then CHUNK_SIZE else t + 1) (f.length - pos)) vaddr
          (loaded + min (if t + 1 > CHUNK_SIZE then CHUNK_SIZE else t + 1) (f.length - pos)) _
          (by omega) hfail
        refine ⟨Ev.readChunk (if t + 1 > CHUNK_SIZE then CHUNK_SIZE else t + 1)
            (min (if t + 1 > CHUNK_SIZE then CHUNK_SIZE else t + 1) (f.length - pos))
            :: Ev.memWrite (vaddr + loaded) (min (if t + 1 > CHUNK_SIZE then CHUNK_SIZE else t + 1) (f.length - pos))
            :: Ev.flush (vaddr + loaded) (min (if t + 1 > CHUNK_SIZE then CHUNK_SIZE else t + 1) (f.length - pos))
            :: pre, r, ?_, ?_⟩
        · rw [hsh]
          rfl
        · intro s hx
          simp only [List.mem_cons] at hx
          rcases hx with h | h | h | h
          · injection h with h1 h2
            omega
          · exact Ev.noConfusion h
          · exact Ev.noConfusion h
          · exact hcl s h

/-- A successfully processed entry performed no zero-byte chunk read. -/
theorem loadEntry_none_no_zero (w : Nat) (f : List Nat) (mem : Nat → Nat) (ph : Phdr) (req : Nat)
    (h : (loadEntry w f mem ph).1 = none) :
    Ev.readChunk req 0 ∉ (loadEntry w f mem ph).2.2 := by
  simp only [loadEntry] at h ⊢
  by_cases hmod : (ph.p_offset + ph.p_filesz) % 2 ^ w > f.length
  · rw [if_pos hmod] at h
    exact absurd h (by simp)
  · rw [if_neg hmod] at h ⊢
    by_cases hb : (copyChunks f ph.p_filesz mem ph.p_offset ph.p_vaddr 0 ph.p_filesz).1 = true
    · rw [if_pos hb] at h ⊢
      by_cases hbss : ph.p_memsz > ph.p_filesz
      · rw [if_pos hbss]
        intro hx
        rcases List.mem_append.mp hx with h1 | h1
        · exact copyChunks_ok_no_zero f _ _ _ _ _ _ req hb h1
        · exact Ev.noConfusion (List.mem_singleton.mp h1)
      · rw [if_neg hbss]
        exact copyChunks_ok_no_zero f _ _ _ _ _ _ req hb
    · rw [if_neg hb] at h
      exact absurd h (by simp)

/-- An entry whose events contain a zero-byte chunk read failed with the
short-read error, and that read is the last of its events. -/
theorem loadEntry_zero_shape (w : Nat) (f : List Nat) (mem : Nat → Nat) (ph : Phdr) (req : Nat)
    (hx : Ev.readChunk req 0 ∈ (loadEntry w f mem ph).2.2) :
    (loadEntry w f mem ph).1 = some LoadErr.shortSegmentRead ∧
    ∃ pre, (loadEntry w f mem ph).2.2 = pre ++ [Ev.readChunk req 0] ∧
      ∀ s, Ev.readChunk s 0 ∉ pre := by
  simp only [loadEntry] at hx ⊢
  by_cases hmod : (ph.p_offset + ph.p_filesz) % 2 ^ w > f.length
  · rw [if_pos hmod] at hx
    exact absurd hx (List.not_mem_nil _)
  · rw [if_neg hmod] at hx ⊢
    by_cases hb : (copyChunks f ph.p_filesz mem ph.p_offset ph.p_vaddr 0 ph.p_filesz).1 = true
    · rw [if_pos hb] at hx
      by_cases hbss : ph.p_memsz > ph.p_filesz
      · rw [if_pos hbss] at hx
        rcases List.mem_append.mp hx with h1 | h1
        · exact absurd h1 (copyChunks_ok_no_zero f _ _ _ _ _ _ req hb)
        · exact Ev.noConfusion (List.mem_singleton.mp h1)
      · rw [if_neg hbss] at hx
        exact absurd hx (copyChunks_ok_no_zero f _ _ _ _ _ _ req hb)
    · have hbf : (copyChunks f ph.p_filesz mem ph.p_offset ph.p_vaddr 0 ph.p_filesz).1 = false := by
        cases hc : (copyChunks f ph.p_filesz mem ph.p_offset ph.p_vaddr 0 ph.p_filesz).1
        · rfl
        · exact absurd hc hb
      obtain ⟨pre, r, hsh, hcl⟩ :=
        copyChunks_fail_shape f ph.p_filesz ph.p_filesz ph.p_offset ph.p_vaddr 0 mem
          (le_refl _) hbf
      rw [if_neg hb] at hx ⊢
      rw [hsh] at hx ⊢
      refine ⟨rfl, ?_⟩
      rcases List.mem_append.mp hx with h1 | h1
      · exact absurd h1 (hcl req)
      · have h2 := List.mem_singleton.mp h1
        injection h2 with hr hg
        subst hr
        exact ⟨pre, rfl, hcl⟩

/-- The entry loop's events contain a zero-byte chunk read only when the
loop failed with the short-read error, and then that read is the last of
its events — the loop performs no further read or write after it. -/
theorem loadEntries_zero_shape (w : Nat) (f : List Nat) :
    ∀ entries mem req,
    Ev.readChunk req 0 ∈ (loadEntries w f mem entries).2.2 →
    (loadEntries w f mem entries).1 = some LoadErr.shortSegmentRead ∧
    ∃ pre, (loadEntries w f mem entries).2.2 = pre ++ [Ev.readChunk req 0] ∧
      ∀ s, Ev.readChunk s 0 ∉ pre := by
  intro entries
  induction entries with
  | nil => intro mem req hx; exact absurd hx (List.not_mem_nil _)
  | cons ph rest ih =>
    intro mem req hx
    simp only [loadEntries] at hx ⊢
    cases h : (loadEntry w f mem ph).1 with
    | some e =>
      simp only [h] at hx ⊢
      obtain ⟨h1, pre, hsh, hcl⟩ := loadEntry_zero_shape w f mem ph req hx
      rw [h] at h1
      injection h1 with h2
      subst h2
      exact ⟨rfl, pre, hsh, hcl⟩
    | none =>
      simp only [h] at hx ⊢
      rcases List.mem_append.mp hx with h1 | h1
      · exact absurd h1 (loadEntry_none_no_zero w f mem ph req h)
      · obtain ⟨h2, pre2, hsh2, hcl2⟩ := ih (loadEntry w f mem ph).2.1 req h1
        refine ⟨h2, (loadEntry w f mem ph).2.2 ++ pre2, ?_, ?_⟩
        · rw [hsh2, List.append_assoc]
        · intro s hs
          rcases List.mem_append.mp hs with hA | hA
          · exact loadEntry_none_no_zero w f mem ph s h hA
          · exact hcl2 s hA

/-- C4 (amended): a chunk read that returns zero bytes is fatal: the load
fails with the short-read error and the zero-byte read is the last chunk
event of the whole trace — only the cleanup (free of the table, close of
the file) follows it, and no earlier chunk read returned zero. -/
theorem C4_zero_read_fatal (w : Nat) (env : Env) (req : Nat)
    (h : Ev.readChunk req 0 ∈ (load_elf w env).trace) :
    (load_elf w env).result = LoadResult.err LoadErr.shortSegmentRead ∧
    ∃ pre, (load_elf w env).trace = pre ++ [Ev.readChunk req 0, Ev.freeA, Ev.closeF] ∧
      ∀ s, Ev.readChunk s 0 ∉ pre := by
  rcases load_elf_chunk_shape w env with hno | ⟨htr, hres⟩
  · exact absurd h (hno req 0)
  · rw [htr] at h
    rcases List.mem_append.mp h with hA | hA
    · rcases List.mem_append.mp hA with hB | hB
      · simp only [List.mem_cons, List.not_mem_nil, or_false] at hB
        rcases hB with h | h | h | h <;> exact Ev.noConfusion h
      · obtain ⟨hsome, pre, hsh, hcl⟩ :=
          loadEntries_zero_shape w env.file (phdrs w env.file) env.mem0 req hB
        constructor
        · rw [hres, hsome]
        · refine ⟨[Ev.openF, Ev.readHdr (ehdrSize w) (ehdrSize w), Ev.alloc,
            Ev.readTbl (e_phnum w env.file * phdrSize w) (e_phnum w env.file * phdrSize w)]
              ++ pre, ?_, ?_⟩
          · rw [htr, hsh]
            simp [List.append_assoc]
          · intro s hs
            rcases List.mem_append.mp hs with hC | hC
            · simp only [List.mem_cons, List.not_mem_nil, or_false] at hC
              rcases hC with h | h | h | h <;> exact Ev.noConfusion h
            · exact hcl s hC
    · simp only [List.mem_cons, List.not_mem_nil, or_false] at hA
      rcases hA with h | h <;> exact Ev.noConfusion h

/-- C4 witness: C4_zero_read_fatal on envZR, where the first chunk read
(4096 bytes requested at position 300, past the end of file) returns 0. -/
theorem C4_zero_read_fatal_witness :
    Ev.readChunk 4096 0 ∈ (load_elf 32 envZR).trace ∧
    ((load_elf 32 envZR).result = LoadResult.err LoadErr.shortSegmentRead ∧
      ∃ pre, (load_elf 32 envZR).trace = pre ++ [Ev.readChunk 4096 0, Ev.freeA, Ev.closeF] ∧
        ∀ s, Ev.readChunk s 0 ∉ pre) :=
  ⟨by decide, C4_zero_read_fatal 32 envZR 4096 (by decide)⟩

/-- C4 counterexample: in envWrap the chunk read at trace index 4 is
non-final (0xFFFFFFCE bytes remained, so 4096 were requested) and returns
only 100 bytes — fewer than requested but positive — yet the loop
continues: it copies the bytes (index 5) and issues another read
(index 7) instead of failing at once. -/
theorem C4_counterexample :
    (load_elf32 envWrap).trace.get? 4 = some (Ev.readChunk 4096 100) ∧
    (load_elf32 envWrap).trace.get? 5 = some (Ev.memWrite 0x100 100) ∧
    (load_elf32 envWrap).trace.get? 7 = some (Ev.readChunk 4096 0) := by
  decide

/-- countEv distributes over append. -/
theorem countEv_append (e : Ev) (l1 l2 : List Ev) :
    countEv e (l1 ++ l2) = countEv e l1 + countEv e l2 := by
  induction l1 with
  | nil => simp [countEv]
  | cons x r ih => simp [countEv, ih, Nat.add_assoc]

/-- countEv of an event absent from a list is zero. -/
theorem countEv_zero (e : Ev) (l : List Ev) (h : ∀ x ∈ l, x ≠ e) : countEv e l = 0 := by
  induction l with
  | nil => rfl
  | cons x r ih =>
    simp only [countEv]
    rw [if_neg (h x (List.mem_cons_self _ _)),
      ih (fun y hy => h y (List.mem_cons_of_mem _ hy))]

/-- The entry loop emits no open/close/alloc/free event. -/
theorem countEv_entries_zero (w : Nat) (f : List Nat) (mem : Nat → Nat) (entries : List Phdr)
    (e : Ev) (he : chunkEv e = false) :
    countEv e (loadEntries w f mem entries).2.2 = 0 :=
  countEv_zero e _ (fun x hx heq => by
    have hc := loadEntries_evs_chunk w f entries mem x hx
    rw [heq, he] at hc
    exact Bool.noConfusion hc)

/-- C9: on every exit path of a load — every combination of environment
outcomes and file contents — the trace holds exactly as many close events
as successful opens and exactly as many frees as allocations: no file
handle or table allocation leaks. -/
theorem C9_resource_cleanup (w : Nat) (env : Env) :
    countEv Ev.closeF (load_elf w env).trace = countEv Ev.openF (load_elf w env).trace ∧
    countEv Ev.freeA (load_elf w env).trace = countEv Ev.alloc (load_elf w env).trace := by
  by_cases h1 : env.mountOk = false
  · simp only [load_elf, if_pos h1]
    exact ⟨rfl, rfl⟩
  by_cases h2 : env.openOk = false
  · simp only [load_elf, if_neg h1, if_pos h2]
    exact ⟨rfl, rfl⟩
  by_cases h3 : min (ehdrSize w) env.file.length ≠ ehdrSize w
  · simp only [load_elf, if_neg h1, if_neg h2, if_pos h3]
    constructor <;> simp [countEv]
  by_cases h4 : validMagic env.file = false
  · simp only [load_elf, if_neg h1, if_neg h2, if_neg h3, if_pos h4]
    constructor <;> simp [countEv]
  by_cases h5 : e_phoff w env.file ≥ env.file.length
  · simp only [load_elf, if_neg h1, if_neg h2, if_neg h3, if_neg h4, if_pos h5]
    constructor <;> simp [countEv]
  by_cases h6 : env.allocOk = false
  · simp only [load_elf, if_neg h1, if_neg h2, if_neg h3, if_neg h4, if_neg h5, if_pos h6]
    constructor <;> simp [countEv]
  by_cases h7 : min (e_phnum w env.file * phdrSize w) (env.file.length - e_phoff w env.file)
      ≠ e_phnum w env.file * phdrSize w
  · simp only [load_elf, if_neg h1, if_neg h2, if_neg h3, if_neg h4, if_neg h5, if_neg h6,
      if_pos h7]
    constructor <;> simp [countEv]
  cases heq : (loadEntries w env.file env.mem0 (phdrs w env.file)).1 with
  | some e =>
    simp only [load_elf, if_neg h1, if_neg h2, if_neg h3, if_neg h4, if_neg h5, if_neg h6,
      if_neg h7, heq]
    constructor <;>
      simp [countEv_append, countEv,
        countEv_entries_zero w env.file env.mem0 (phdrs w env.file) Ev.closeF rfl,
        countEv_entries_zero w env.file env.mem0 (phdrs w env.file) Ev.openF rfl,
        countEv_entries_zero w env.file env.mem0 (phdrs w env.file) Ev.freeA rfl,
        countEv_entries_zero w env.file env.mem0 (phdrs w env.file) Ev.alloc rfl]
  | none =>
    simp only [load_elf, if_neg h1, if_neg h2, if_neg h3, if_neg h4, if_neg h5, if_neg h6,
      if_neg h7, heq]
    constructor <;>
      simp [countEv_append, countEv,
        countEv_entries_zero w env.file env.mem0 (phdrs w env.file) Ev.closeF rfl,
        countEv_entries_zero w env.file env.mem0 (phdrs w env.file) Ev.openF rfl,
        countEv_entries_zero w env.file env.mem0 (phdrs w env.file) Ev.freeA rfl,
        countEv_entries_zero w env.file env.mem0 (phdrs w env.file) Ev.alloc rfl]

/-- A list of chunk events contains no register write. -/
theorem filter_regW_nil (l : List Ev) (h : ∀ x ∈ l, chunkEv x = true) :
    l.filter isRegW = [] := by
  induction l with
  | nil => rfl
  | cons x r ih =>
    have hx := h x (List.mem_cons_self _ _)
    have hnx : isRegW x = false := by
      cases x <;> first | rfl | exact Bool.noConfusion hx
    rw [List.filter_cons, if_neg (by simp [hnx])]
    exact ih (fun y hy => h y (List.mem_cons_of_mem _ hy))

/-- A load performs no hardware-register write. -/
theorem load_filter_regW (w : Nat) (env : Env) :
    (load_elf w env).trace.filter isRegW = [] := by
  by_cases h1 : env.mountOk = false
  · simp only [load_elf, if_pos h1]
    rfl
  by_cases h2 : env.openOk = false
  · simp only [load_elf, if_neg h1, if_pos h2]
    rfl
  by_cases h3 : min (ehdrSize w) env.file.length ≠ ehdrSize w
  · simp only [load_elf, if_neg h1, if_neg h2, if_pos h3]
    rfl
  by_cases h4 : validMagic env.file = false
  · simp only [load_elf, if_neg h1, if_neg h2, if_neg h3, if_pos h4]
    rfl
  by_cases h5 : e_phoff w env.file ≥ env.file.length
  · simp only [load_elf, if_neg h1, if_neg h2, if_neg h3, if_neg h4, if_pos h5]
    rfl
  by_cases h6 : env.allocOk = false
  · simp only [load_elf, if_neg h1, if_neg h2, if_neg h3, if_neg h4, if_neg h5, if_pos h6]
    rfl
  by_cases h7 : min (e_phnum w env.file * phdrSize w) (env.file.length - e_phoff w env.file)
      ≠ e_phnum w env.file * phdrSize w
  · simp only [load_elf, if_neg h1, if_neg h2, if_neg h3, if_neg h4, if_neg h5, if_neg h6,
      if_pos h7]
    rfl
  cases heq : (loadEntries w env.file env.mem0 (phdrs w env.file)).1 with
  | some e =>
    simp only [load_elf, if_neg h1, if_neg h2, if_neg h3, if_neg h4, if_neg h5, if_neg h6,
      if_neg h7, heq]
    simp [List.filter_append,
      filter_regW_nil _ (fun x hx => loadEntries_evs_chunk w env.file (phdrs w env.file) env.mem0 x hx),
      List.filter, isRegW]
  | none =>
    simp only [load_elf, if_neg h1, if_neg h2, if_neg h3, if_neg h4, if_neg h5, if_neg h6,
      if_neg h7, heq]
    simp [List.filter_append,
      filter_regW_nil _ (fun x hx => loadEntries_evs_chunk w env.file (phdrs w env.file) env.mem0 x hx),
      List.filter, isRegW]

/-- C8: in the APU main pipeline's trace, the register-write subsequence
is exactly: publish the handoff descriptor, assert the core reset (0xF),
the eight reset-vector writes, release the reset (0x0) — so every
reset-vector register is written strictly between the reset-assert and
the reset-release writes, and the descriptor publication completes before
the release. -/
theorem C8_handoff_order (e1 e2 : Env) (d : Nat) :
    regWrites (apu_main e1 e2 d) =
      [Ev.regW GLOBAL_GEN_STORAGE6_ADDR d, Ev.regW RST_FPD_APU_ADDR 0xF]
        ++ set_apu_rvba (bl31Entrypoint e1) ++ [Ev.regW RST_FPD_APU_ADDR 0] := by
  have hf1 := load_filter_regW 64 e1
  have hf2 := load_filter_regW 64
    ⟨e2.mountOk, e2.openOk, e2.allocOk, e2.file, (load_elf64 e1).mem⟩
  simp only [load_elf64] at hf1 hf2
  simp [apu_main, regWrites, List.filter_append, load_elf64, hf1, hf2,
    reset_apu_cores, set_apu_rvba, List.filter, isRegW]

end Bootloader
